import Mathlib

/-
Verification development for the nfc-pcsc core (src/src/Reader.ts and the
error classes bundled with src/src/NFC.ts).

The TypeScript source is shallowly embedded: buffers become lists of
naturals (each entry a byte value; Buffer.from truncates writes mod 256,
modelled by bufferFrom), promises returning T become Except NfcError T,
and the provider transmit callback becomes an explicit oracle argument
of type Bytes -> Nat -> Except NfcError Bytes.  Functions that transmit
also return a transcript (List TxCall) of the packets they handed to the
oracle, in issue order, so that claims about what is transmitted can be
stated.  Line references are to src/src/Reader.ts.
-/

namespace NfcPcsc

/-- Byte strings (Node Buffers); each element is a byte value 0..255. -/
abbrev Bytes := List Nat

/-- Buffer.from(array): Node truncates each entry to a byte (mod 256). -/
def bufferFrom (l : List Nat) : Bytes := l.map (fun b => b % 256)

/-- A call to this.transmit: the packet and the responseMaxLength argument. -/
abbrev TxCall := Bytes × Nat

-- Error model (errors.ts, bundled at the end of src/src/NFC.ts).
-- BaseError carries a code (string or null) and an optional message; the
-- name field distinguishes the subclasses (ReadError, WriteError, ...).
-- The wrapped previous error is not needed by any claim and is omitted.

structure NfcError where
  kind : String
  code : Option String
  msg : Option String
deriving DecidableEq

deriving instance DecidableEq for Except

/-- errors.ts: export const FAILURE = 'failure' -/
def FAILURE : String := "failure"

/-- errors.ts: export const CARD_NOT_CONNECTED = 'card_not_connected' -/
def CARD_NOT_CONNECTED : String := "card_not_connected"

/-- errors.ts: export const OPERATION_FAILED = 'operation_failed' -/
def OPERATION_FAILED : String := "operation_failed"

/-- Code of the error carried by a rejected result, if the result is an error. -/
def Except.errCode {α : Type} : Except NfcError α → Option (Option String)
  | .error e => some e.code
  | .ok _ => none

/-- Kind (class name) of the error carried by a rejected result. -/
def Except.errKind {α : Type} : Except NfcError α → Option String
  | .error e => some e.kind
  | .ok _ => none

/-- Whether a result is a fulfilled (non-error) value. -/
def Except.isOkay {α : Type} : Except NfcError α → Bool
  | .error _ => false
  | .ok _ => true

-- Hex codec.  Node Buffer.from(s, 'hex') decodes two hex digits per byte
-- and stops at the first pair containing an invalid digit; a trailing odd
-- digit is dropped.  Buffer.prototype.toString('hex') emits lowercase.

/-- Value of a hex digit character, if it is one. -/
def hexDigitVal (c : Char) : Option Nat :=
  if '0' ≤ c ∧ c ≤ '9' then some (c.toNat - '0'.toNat)
  else if 'a' ≤ c ∧ c ≤ 'f' then some (c.toNat - 'a'.toNat + 10)
  else if 'A' ≤ c ∧ c ≤ 'F' then some (c.toNat - 'A'.toNat + 10)
  else none

/-- Whether a character is a hex digit. -/
def isHexDigit (c : Char) : Bool := (hexDigitVal c).isSome

/-- Node hex decoding of a character list: pairs of digits, stopping at the
first invalid pair, dropping a trailing lone digit. -/
def decodeHexPairs : List Char → Bytes
  | c1 :: c2 :: rest =>
    match hexDigitVal c1, hexDigitVal c2 with
    | some hi, some lo => (16 * hi + lo) :: decodeHexPairs rest
    | _, _ => []
  | _ => []

/-- Buffer.from(s, 'hex'). -/
def bufferFromHex (s : String) : Bytes := decodeHexPairs s.data

/-- Lowercase hex digit for a value below 16. -/
def hexDigitChar (d : Nat) : Char :=
  if d < 10 then Char.ofNat ('0'.toNat + d) else Char.ofNat ('a'.toNat + (d - 10))

/-- Two lowercase hex digits of one byte. -/
def byteToHex (b : Nat) : List Char := [hexDigitChar (b / 16 % 16), hexDigitChar (b % 16)]

/-- Buffer.prototype.toString('hex'): lowercase hex of every byte. -/
def bytesToHex (b : Bytes) : String := String.mk (b.map byteToHex).flatten

/-- True when the head of the character list cannot start another decoded
byte: the list is empty, a lone trailing digit, or its first pair contains
an invalid digit. -/
def pairBlocked : List Char → Bool
  | [] => true
  | [_] => true
  | c1 :: c2 :: _ => !(isHexDigit c1 && isHexDigit c2)

-- AID configuration (Reader.ts lines 102-119).  The runtime value stored in
-- _aid is a function, a Buffer, or (before the setter) null; the setter turns
-- hex strings into Buffers and rejects every other value.  AidValue.other
-- stands for any runtime argument that is not a function, Buffer or string.

inductive AidValue where
  | fn
  | buf (b : Bytes)
  | str (s : String)
  | other
deriving DecidableEq

/-- Reader.ts lines 106-119, set aid(value): functions and Buffers are stored
as given; non-strings are rejected; strings are hex-decoded. -/
def aidSet (value : AidValue) : Except String AidValue :=
  match value with
  | .fn => .ok .fn
  | .buf b => .ok (.buf b)
  | .other => .error "AID must be a HEX string or an instance of Buffer or a function."
  | .str s => .ok (.buf (bufferFromHex s))

-- Tag standards (Reader.ts lines 21-22).

/-- export const TAG_ISO_14443_3 -/
def TAG_ISO_14443_3 : String := "TAG_ISO_14443_3"

/-- export const TAG_ISO_14443_4 -/
def TAG_ISO_14443_4 : String := "TAG_ISO_14443_4"

/-- Reader.ts lines 90-100, selectStandardByAtr: the test is
if (atr[5] && atr[5] === 0x4f); an out-of-range index yields undefined and a
zero byte is falsy, so both fall to the else branch. -/
def selectStandardByAtr (atr : Bytes) : String :=
  if (match atr[5]? with
      | some v => v ≠ 0 && v = 0x4f
      | none => false) then TAG_ISO_14443_3
  else TAG_ISO_14443_4

-- Card descriptor (Reader.ts lines 37-43); every field is optional.

structure Card where
  atr : Option Bytes
  standard : Option String
  type : Option String
  uid : Option String
  data : Option Bytes
deriving DecidableEq

/-- Reader.ts lines 181-187: the card built on insertion; atr, standard and
type are populated only when the status carried an ATR. -/
def buildInsertedCard (atr : Option Bytes) : Card :=
  match atr with
  | some a => { atr := some a, standard := some (selectStandardByAtr a),
                type := some (selectStandardByAtr a), uid := none, data := none }
  | none => { atr := none, standard := none, type := none, uid := none, data := none }

/-- Which processing path handleTag picks. -/
inductive TagPath where
  | iso3
  | iso4
deriving DecidableEq

/-- Reader.ts lines 681-702, handleTag: none when there is no card (the
function returns false); otherwise the switch on card.standard, whose
default branch runs the ISO 14443-3 handler. -/
def handleTag (card : Option Card) : Option TagPath :=
  match card with
  | none => none
  | some c =>
    if c.standard = some TAG_ISO_14443_3 then some TagPath.iso3
    else if c.standard = some TAG_ISO_14443_4 then some TagPath.iso4
    else some TagPath.iso3

-- Key slot cache (Reader.ts lines 64-67): keyStorage has exactly the slots
-- 0 and 1, each holding a 6-byte key or null.  Object.keys iterates the
-- numeric keys in ascending order, giving the list [0, 1].

/-- keyStorage as a table; only slots 0 and 1 are ever populated. -/
def KeyStorage := Nat → Option Bytes

/-- The initial storage: both slots null. -/
def emptyKeyStorage : KeyStorage := fun _ => none

/-- this.keyStorage[n] = v. -/
def KeyStorage.set (ks : KeyStorage) (n : Nat) (v : Option Bytes) : KeyStorage :=
  fun m => if m = n then v else ks m

/-- String.prototype.toLowerCase for the strings compared here (hex key
strings are ASCII; Char.toLower lowercases the ASCII uppercase letters). -/
def toLowerStr (s : String) : String := String.mk (s.data.map Char.toLower)

/-- Reader.ts lines 429-438, findKeyNumber: scan slots [0, 1] in order; with
null, find an unused slot; with a key, compare the stored key as lowercase
hex against the lowercased request (a null slot compares unequal). -/
def findKeyNumber (ks : KeyStorage) (key : Option String) : Option Nat :=
  [0, 1].find? fun k =>
    match key with
    | none => (ks k).isNone
    | some s =>
      match ks k with
      | some v => toLowerStr (bytesToHex v) == toLowerStr s
      | none => false

/-- Reader.ts lines 456-469: the slot an authenticate call loads into when
the key is in no slot.  keyNumber starts at the first slot (0); if that slot
is occupied, findKeyNumber(null) looks for a free slot, and the JS truthiness
test if (freeNumber) only switches to it when it is a nonzero slot number
(slot 0 cannot be the free slot here, since it was just seen occupied). -/
def selectTargetSlot (ks : KeyStorage) : Nat :=
  let keyNumber := 0
  if (ks keyNumber).isSome then
    match findKeyNumber ks none with
    | some freeNumber => if freeNumber ≠ 0 then freeNumber else keyNumber
    | none => keyNumber
  else keyNumber

-- Status words.  Every response ends in a two-byte big-endian status word;
-- 0x9000 is success.

/-- Buffer.prototype.readUInt16BE(0): big-endian 16-bit word at offset 0.
Node throws a RangeError on buffers shorter than two bytes; the call sites
modelled here either guard the length first or are evaluated on responses
of length two, so the getD default is never observable. -/
def readUInt16BE0 (b : Bytes) : Nat := 256 * b.getD 0 0 + b.getD 1 0

/-- Number.prototype.toString(16) for a natural number (lowercase hex). -/
def natToHex (n : Nat) : String := String.mk (Nat.toDigits 16 n)

-- Single-block read (Reader.ts lines 568-604): the branch of read that
-- issues one Read Binary APDU.  tx is this.transmit.

/-- The Read Binary packet (lines 569-575). -/
def readPacket (readClass blockNumber len : Nat) : Bytes :=
  bufferFrom [readClass, 0xb0, (blockNumber >>> 8) &&& 0xff, blockNumber &&& 0xff, len]

/-- Reader.ts lines 568-604: transmit the Read Binary packet, reject a
response shorter than two bytes, read the big-endian status word from the
last two bytes, and on 0x9000 return the response with those two bytes
stripped.  Returns the result and the transcript of transmit calls. -/
def readSingle (tx : Bytes → Nat → Except NfcError Bytes)
    (blockNumber len readClass : Nat) : Except NfcError Bytes × List TxCall :=
  let packet := readPacket readClass blockNumber len
  match tx packet (len + 2) with
  | .error _ => (.error ⟨"ReadError", none, none⟩, [(packet, len + 2)])
  | .ok response =>
    if response.length < 2 then
      (.error ⟨"ReadError", some OPERATION_FAILED,
        some ("Read operation failed: Invalid response length " ++
          toString response.length ++ ". Expected minimal length is 2 bytes.")⟩,
       [(packet, len + 2)])
    else
      let statusCode := readUInt16BE0 (response.drop (response.length - 2))
      if statusCode ≠ 0x9000 then
        (.error ⟨"ReadError", some OPERATION_FAILED,
          some ("Read operation failed: Status code: 0x" ++ natToHex statusCode)⟩,
         [(packet, len + 2)])
      else
        (.ok (response.take (response.length - 2)), [(packet, len + 2)])

-- Key argument of loadAuthenticationKey: a Buffer, a byte array (both become
-- byte lists) or a hex string.

inductive KeyArg where
  | buf (b : Bytes)
  | str (s : String)
deriving DecidableEq

/-- Reader.ts lines 372-426, loadAuthenticationKey: validate the slot number
and the 6-byte key (hex strings are decoded first), transmit the Load
Authentication Keys packet FF 82 00 slot 06 key, and on status 0x9000 record
the key in the slot and return the slot number.  Returns the result, the
updated keyStorage and the transcript. -/
def loadAuthenticationKey (tx : Bytes → Nat → Except NfcError Bytes)
    (ks : KeyStorage) (keyNumber : Nat) (key : KeyArg) :
    Except NfcError Nat × KeyStorage × List TxCall :=
  if ¬(keyNumber = 0 ∨ keyNumber = 1) then
    (.error ⟨"LoadAuthenticationKeyError", some "invalid_key_number", none⟩, ks, [])
  else
    let kb := match key with
      | .buf b => b
      | .str s => bufferFromHex s
    if kb.length ≠ 6 then
      (.error ⟨"LoadAuthenticationKeyError", some "invalid_key",
        some "Key length must be 6 bytes."⟩, ks, [])
    else
      let packet := bufferFrom ([0xff, 0x82, 0x00, keyNumber, kb.length] ++ kb)
      match tx packet 2 with
      | .error _ =>
        (.error ⟨"LoadAuthenticationKeyError", none, none⟩, ks, [(packet, 2)])
      | .ok response =>
        let statusCode := readUInt16BE0 response
        if statusCode ≠ 0x9000 then
          (.error ⟨"LoadAuthenticationKeyError", some OPERATION_FAILED,
            some ("Load authentication key operation failed: Status code: " ++
              toString statusCode)⟩, ks, [(packet, 2)])
        else
          (.ok keyNumber, ks.set keyNumber (some kb), [(packet, 2)])

/-- The Authentication packet (Reader.ts lines 488-513): V2.07 form
FF 86 00 00 05 01 00 block keyType slot, or the obsolete V2.01 form
FF 88 00 block keyType slot. -/
def authPacket (obsolete : Bool) (blockNumber keyType keyNumber : Nat) : Bytes :=
  if !obsolete then
    bufferFrom [0xff, 0x86, 0x00, 0x00, 0x05, 0x01, 0x00, blockNumber, keyType, keyNumber]
  else
    bufferFrom [0xff, 0x88, 0x00, blockNumber, keyType, keyNumber]

/-- Reader.ts lines 488-535: the transmit-and-check tail of authenticate,
after the key slot is known. -/
def authTransmit (tx : Bytes → Nat → Except NfcError Bytes)
    (blockNumber keyType keyNumber : Nat) (obsolete : Bool) :
    Except NfcError Bool × List TxCall :=
  let packet := authPacket obsolete blockNumber keyType keyNumber
  match tx packet 2 with
  | .error _ => (.error ⟨"AuthenticationError", none, none⟩, [(packet, 2)])
  | .ok response =>
    let statusCode := readUInt16BE0 response
    if statusCode ≠ 0x9000 then
      (.error ⟨"AuthenticationError", some OPERATION_FAILED,
        some ("Authentication operation failed: Status code: 0x" ++ natToHex statusCode)⟩,
       [(packet, 2)])
    else
      (.ok true, [(packet, 2)])

/-- Reader.ts lines 447-536, authenticate, rendered for one sequential call
(pendingLoadAuthenticationKey is empty at entry; the promise the call would
store there is the load performed here, and the finally clause removes it
again before the function returns, so the table is empty at exit; the
interleaving of several concurrent calls is modelled separately below).
If findKeyNumber finds the key in a slot, that slot is used; otherwise the
target slot is picked (lines 456-469), the key is loaded, a load failure
becomes AuthenticationError unable_to_load_key, and on success the
Authentication packet is transmitted. -/
def authenticate (tx : Bytes → Nat → Except NfcError Bytes)
    (ks : KeyStorage) (blockNumber keyType : Nat) (key : String) (obsolete : Bool) :
    Except NfcError Bool × KeyStorage × List TxCall :=
  match findKeyNumber ks (some key) with
  | some keyNumber =>
    let r := authTransmit tx blockNumber keyType keyNumber obsolete
    (r.1, ks, r.2)
  | none =>
    let keyNumber := selectTargetSlot ks
    match loadAuthenticationKey tx ks keyNumber (.str key) with
    | (.error _, ks2, calls) =>
      (.error ⟨"AuthenticationError", some "unable_to_load_key",
        some "Could not load authentication key into reader."⟩, ks2, calls)
    | (.ok loadedNumber, ks2, calls) =>
      let r := authTransmit tx blockNumber keyType loadedNumber obsolete
      (r.1, ks2, calls ++ r.2)

-- Status-handler event model (Reader.ts constructor, lines 142-209).
-- EventEmitter.emit takes the event name as its first argument; listeners
-- registered with on("error", ...) run only for events whose name is the
-- string "error".  The catch blocks at lines 168-172 and 200-204 call
-- this.emit(err), passing the error object itself as the event name.

inductive EmitName where
  | ch (s : String)
  | errObj (e : NfcError)
deriving DecidableEq

/-- The events of a list that a listener registered with on("error", ...)
would be invoked for. -/
def errorChannelEvents (evts : List EmitName) : List EmitName :=
  evts.filter fun x => x == EmitName.ch "error"

/-- Reader.ts lines 153-174, the card-removal edge: emit card.off when a card
was present, clear it, and disconnect when connected; a disconnect rejection
is caught and passed to this.emit(err) as the event name. -/
def onCardRemoved (hadCard : Bool) (hasConnection : Bool)
    (disconnectResult : Except NfcError Bool) : List EmitName :=
  (if hadCard then [EmitName.ch "card.off"] else []) ++
  (if hasConnection then
     match disconnectResult with
     | .error e => [EmitName.errObj e]
     | .ok _ => []
   else [])

/-- Reader.ts lines 175-207, the card-insertion edge: connect, then either
emit card (autoProcessing off) or dispatch the tag; a connect rejection is
caught and passed to this.emit(err) as the event name.  dispatchEvents are
the events the tag dispatcher itself would emit. -/
def onCardInserted (connectResult : Except NfcError Bool) (autoProcessing : Bool)
    (dispatchEvents : List EmitName) : List EmitName :=
  match connectResult with
  | .error e => [EmitName.errObj e]
  | .ok _ =>
    if autoProcessing = false then [EmitName.ch "card"] else dispatchEvents

-- Promise.all over already-determined results: the aggregate is the list of
-- values, or the first rejection in order.

/-- Promise.all for a list of settled results. -/
def promiseAll {α : Type} : List (Except NfcError α) → Except NfcError (List α)
  | [] => .ok []
  | .error e :: _ => .error e
  | .ok a :: rest => (promiseAll rest).map (fun l => a :: l)

/-- Buffer.concat(values, totalLength): the buffers copied in order into a
buffer of exactly totalLength bytes; surplus is truncated and any shortfall
is zero-filled (Node fills the remainder with zeros). -/
def bufferConcat (values : List Bytes) (totalLength : Nat) : Bytes :=
  values.flatten.take totalLength ++
    List.replicate (totalLength - values.flatten.length) 0

-- Block-chunked read (Reader.ts lines 538-566).  The loop at lines 552-562
-- computes, for each 0 <= i < Math.ceil(length / packetSize), a start block
-- blockNumber + (i * packetSize) / blockSize and a size
-- ((i + 1) * packetSize) < length ? packetSize : length - i * packetSize.
-- JS divides in real arithmetic, so the start block lives in the rationals;
-- Math.ceil of the natural quotient is the rational ceiling.

/-- The (start block, size) descriptors of the sub-reads issued by the split
branch of read. -/
def readReqs (block : ℚ) (len B P : Nat) : List (ℚ × Nat) :=
  (List.range (Int.toNat ⌈(len : ℚ) / (P : ℚ)⌉)).map fun (i : Nat) =>
    (block + ((i : ℚ) * (P : ℚ)) / (B : ℚ),
     if (i + 1) * P < len then P else len - i * P)

theorem readReqs_zero_P (block : ℚ) (len B : Nat) : readReqs block len B 0 = [] := by
  simp [readReqs]

theorem readReqs_size_lt {block : ℚ} {len B P : Nat} {x : ℚ × Nat}
    (hx : x ∈ readReqs block len B P) (h : P < len) : x.2 < len := by
  cases P with
  | zero => rw [readReqs_zero_P] at hx; cases hx
  | succ q =>
    rcases List.mem_map.1 hx with ⟨i, _, rfl⟩
    by_cases hc : (i + 1) * (q + 1) < len
    · simpa [hc] using h
    · have hi1 : 1 ≤ i := by
        rcases Nat.eq_zero_or_pos i with hi0 | hi0
        · subst hi0; simp at hc; omega
        · exact hi0
      have hiq : 1 ≤ i * (q + 1) := Nat.one_le_iff_ne_zero.2 (by positivity)
      simp only [hc, if_false]
      obtain ⟨m, hm⟩ : ∃ m, m = i * (q + 1) := ⟨_, rfl⟩
      rw [← hm] at hiq ⊢
      omega

/-- Reader.ts lines 538-566 and the recursion into lines 568-604: the check
for a card (lines 540-542), the split into sub-reads when length exceeds
packetSize, with Buffer.concat(values, length) over Promise.all, and the
single Read Binary otherwise.  single abstracts the single-packet branch
(readSingle above is its byte-level form for integral blocks); the returned
list is the transcript of single-packet (block, size) requests, in issue
order. -/
def readGo (single : ℚ → Nat → Except NfcError Bytes) (hasCard : Bool)
    (block : ℚ) (len B P : Nat) : Except NfcError Bytes × List (ℚ × Nat) :=
  if hasCard = false then
    (.error ⟨"ReadError", some CARD_NOT_CONNECTED, none⟩, [])
  else if h : P < len then
    let subs := (readReqs block len B P).attach.map
      (fun r => readGo single hasCard r.1.1 r.1.2 B P)
    ((promiseAll (subs.map Prod.fst)).map (fun vs => bufferConcat vs len),
     (subs.map Prod.snd).flatten)
  else
    (single block len, [(block, len)])
termination_by len
decreasing_by
  exact readReqs_size_lt r.2 h

-- Block-chunked write (Reader.ts lines 607-679).

/-- The WriteError thrown at lines 615-617. -/
def writeInvalidDataLengthErr : NfcError :=
  ⟨"WriteError", some "invalid_data_length",
   some "Invalid data length. You can only update the entire data block(s)."⟩

/-- The (block, slice) descriptors of the sub-writes issued by the split
branch of write (lines 619-641): data.length / blockSize writes at
consecutive blocks, each carrying data.slice(i * blockSize, (i+1) * blockSize). -/
def writeReqs (block : Nat) (data : Bytes) (B : Nat) : List (Nat × Bytes) :=
  (List.range (data.length / B)).map fun i =>
    (block + i, (data.drop (i * B)).take B)

theorem writeReqs_part_le {block : Nat} {data : Bytes} {B : Nat} {x : Nat × Bytes}
    (hx : x ∈ writeReqs block data B) : x.2.length ≤ B := by
  rcases List.mem_map.1 hx with ⟨i, _, rfl⟩
  simp [List.length_take]

/-- Reader.ts lines 607-679: the check for a card (lines 609-611), the data
length validation (lines 615-617; in JS, data.length % 0 is NaN, and
NaN !== 0 holds, so blockSize 0 always fails the validation: the B = 0
disjunct renders that), the split into single-block writes when the data
spans several blocks, and the single Update Binary otherwise.  single
abstracts the single-block branch (lines 644-677); the returned list is the
transcript of single-block (block, data) writes, in issue order. -/
def writeGo (single : Nat → Bytes → Except NfcError Bool) (hasCard : Bool)
    (block : Nat) (data : Bytes) (B : Nat) : Except NfcError Bool × List (Nat × Bytes) :=
  if hasCard = false then
    (.error ⟨"WriteError", some CARD_NOT_CONNECTED, none⟩, [])
  else if data.length < B ∨ B = 0 ∨ data.length % B ≠ 0 then
    (.error writeInvalidDataLengthErr, [])
  else if h : B < data.length then
    let subs := (writeReqs block data B).attach.map
      (fun r => writeGo single hasCard r.1.1 r.1.2 B)
    ((promiseAll (subs.map Prod.fst)).map (fun _ => true),
     (subs.map Prod.snd).flatten)
  else
    (single block data, [(block, data)])
termination_by data.length
decreasing_by
  have := writeReqs_part_le r.2
  omega

-- Concurrent authenticate calls for one key (Reader.ts lines 447-486).
-- JavaScript runs each async function atomically between awaits.  For n
-- authenticate calls submitted together for the same key, absent from
-- keyStorage: each call runs its synchronous prologue (lines 448-474) in
-- submission order before the load settles, so every call sees the key
-- missing; the first call finds pendingLoadAuthenticationKey[key] empty,
-- stores the load promise there (line 472, before its first await) and
-- becomes the initiator, and every later call sees the entry and merely
-- awaits it (line 477).  When the single load settles (fulfilled or
-- rejected), the suspended calls resume in the order they awaited - the
-- initiator first - and each runs the finally clause (lines 480-484), whose
-- delete removes the entry; only the first delete, the one in the scope of
-- the initiator, finds the entry present.  The model tracks the entry for
-- the one key, who inserted it, which finalizer transitioned it from
-- present to absent, and which finalizers executed the delete statement.

structure PendingState where
  /-- Whether pendingLoadAuthenticationKey holds an entry for the key. -/
  pending : Bool
  /-- How many times an entry for the key was inserted. -/
  inserted : Nat
  /-- Call indices whose finally clause removed a present entry. -/
  removals : List Nat
  /-- Call indices whose finally clause executed the delete statement. -/
  deletes : List Nat
  /-- The outcome of the load once it has settled. -/
  loadSettled : Option Bool
deriving DecidableEq

/-- No entry, nothing inserted, nothing settled. -/
def initPending : PendingState := ⟨false, 0, [], [], none⟩

/-- Lines 453-474, the synchronous prologue of one authenticate call whose
key is in no slot: start the load and store its promise when no entry
exists (returning true: this call is the initiator), otherwise leave the
existing entry to be awaited (returning false). -/
def authPrologue (s : PendingState) : PendingState × Bool :=
  if s.pending then (s, false)
  else ({ s with pending := true, inserted := s.inserted + 1 }, true)

/-- Lines 480-484, the finally clause of call i, run when the awaited load
has settled: delete pendingLoadAuthenticationKey[key].  The removals field
records i only when the entry was still present. -/
def authFinally (s : PendingState) (i : Nat) : PendingState :=
  { s with pending := false,
           removals := if s.pending then s.removals ++ [i] else s.removals,
           deletes := s.deletes ++ [i] }

/-- The prologues of the given calls, in submission order; returns the
resulting state and the list of calls that initiated a load. -/
def runPrologues (s : PendingState) : List Nat → PendingState × List Nat
  | [] => (s, [])
  | i :: rest =>
    let r1 := authPrologue s
    let r2 := runPrologues r1.1 rest
    (r2.1, (if r1.2 then [i] else []) ++ r2.2)

/-- The load settles, successfully or not. -/
def settleLoad (s : PendingState) (outcome : Bool) : PendingState :=
  { s with loadSettled := some outcome }

/-- The finally clauses of the given calls, in resumption order. -/
def runFinalizers (s : PendingState) (l : List Nat) : PendingState :=
  l.foldl authFinally s

/-- n concurrent authenticate calls for one key that is in no slot: all
prologues in submission order, then the load settles with the given
outcome, then all finalizers in the same order (promise continuations
resume first-awaited-first, and the initiator awaited first). -/
def authScenario (n : Nat) (outcome : Bool) : PendingState × List Nat :=
  let r := runPrologues initPending (List.range n)
  (runFinalizers (settleLoad r.1 outcome) (List.range n), r.2)

/-- The ConnectError built at line 253 when the provider connect fails. -/
def sampleConnectErr : NfcError :=
  ⟨"ConnectError", some FAILURE, some "An error occurred while connecting."⟩

/-- The DisconnectError built at line 287 when the provider disconnect fails. -/
def sampleDisconnectErr : NfcError :=
  ⟨"DisconnectError", some FAILURE, some "An error occurred while disconnecting."⟩

-- Oracles used by concrete evaluations.

/-- A provider whose every response is the bare success status 90 00. -/
def tx9000 : Bytes → Nat → Except NfcError Bytes := fun _ _ => .ok [0x90, 0x00]

/-- A provider whose every response is a single byte (shorter than a status
word). -/
def txShort : Bytes → Nat → Except NfcError Bytes := fun _ _ => .ok [0x90]

/-- A provider whose every response is two payload bytes and a success
status. -/
def txOkFour : Bytes → Nat → Except NfcError Bytes := fun _ _ => .ok [1, 2, 0x90, 0x00]

-- Helper lemmas about the hex decoder.

theorem decode_blocked_nil {v : List Char} (hv : pairBlocked v = true) :
    decodeHexPairs v = [] := by
  match v with
  | [] => rfl
  | [c] => rfl
  | c1 :: c2 :: rest =>
    rcases h1 : hexDigitVal c1 with _ | d1
    · simp [decodeHexPairs, h1]
    · rcases h2 : hexDigitVal c2 with _ | d2
      · simp [decodeHexPairs, h1, h2]
      · exfalso
        simp [pairBlocked, isHexDigit, h1, h2] at hv

theorem decode_append_blocked :
    ∀ (u v : List Char), u.length % 2 = 0 → (∀ c ∈ u, isHexDigit c = true) →
      pairBlocked v = true → decodeHexPairs (u ++ v) = decodeHexPairs u
  | [], v, _, _, hv => by simpa using decode_blocked_nil hv
  | [_], _, hu, _, _ => by simp at hu
  | c1 :: c2 :: u, v, hu, hall, hv => by
    have h1 : isHexDigit c1 = true := hall c1 (by simp)
    have h2 : isHexDigit c2 = true := hall c2 (by simp)
    rcases Option.isSome_iff_exists.1 h1 with ⟨d1, hd1⟩
    rcases Option.isSome_iff_exists.1 h2 with ⟨d2, hd2⟩
    have hu' : u.length % 2 = 0 := by simp [List.length_cons] at hu; omega
    have hall' : ∀ c ∈ u, isHexDigit c = true := fun c hc => hall c (by simp [hc])
    simp only [List.cons_append, decodeHexPairs, hd1, hd2]
    exact congrArg (fun l => (16 * d1 + d2) :: l) (decode_append_blocked u v hu' hall' hv)

-- The claims.

/-- Claim C6: when an authenticate call must load a key (the key is in no
slot and no load is pending), the target slot is slot 0 when slot 0 is
empty; the empty slot (necessarily slot 1) when slot 0 is occupied and some
slot is empty; and slot 0, overwritten, when both slots are occupied. -/
theorem claim_C6 (ks : KeyStorage) :
    selectTargetSlot ks = if ks 0 = none then 0 else if ks 1 = none then 1 else 0 := by
  rcases h0 : ks 0 with _ | v0 <;> rcases h1 : ks 1 with _ | v1 <;>
    simp [selectTargetSlot, findKeyNumber, h0, h1]

/-- Witness for claim C6 at concrete storages. -/
theorem claim_C6_witness :
    selectTargetSlot emptyKeyStorage = 0 := by
  have h := claim_C6 emptyKeyStorage
  simpa [emptyKeyStorage] using h

/-- Claim C8: for an ATR with more than 5 bytes, selectStandardByAtr returns
TAG_ISO_14443_3 exactly when byte 5 is 0x4F, and TAG_ISO_14443_4 otherwise,
including when byte 5 is 0x00. -/
theorem claim_C8 (atr : Bytes) (hlen : 5 < atr.length) :
    (selectStandardByAtr atr = TAG_ISO_14443_3 ↔ atr[5]? = some 0x4f)
  ∧ (atr[5]? ≠ some 0x4f → selectStandardByAtr atr = TAG_ISO_14443_4) := by
  have hne : TAG_ISO_14443_4 ≠ TAG_ISO_14443_3 := by decide
  rcases hv : atr[5]? with _ | v
  · constructor
    · simp [selectStandardByAtr, hv, hne]
    · intro _; simp [selectStandardByAtr, hv]
  · by_cases h4 : v = 0x4f
    · subst h4
      constructor
      · simp [selectStandardByAtr, hv]
      · intro hne2; exact absurd rfl hne2
    · constructor
      · simp [selectStandardByAtr, hv, h4, hne]
      · intro _; simp [selectStandardByAtr, hv, h4]

/-- Witness for claim C8 at a concrete six-byte ATR with byte 5 = 0x4F. -/
theorem claim_C8_witness :
    selectStandardByAtr [59, 143, 128, 1, 128, 0x4f] = TAG_ISO_14443_3 :=
  (claim_C8 [59, 143, 128, 1, 128, 0x4f] (by decide)).1.mpr (by decide)

/-- Claim C9: when a card is present whose standard is neither
TAG_ISO_14443_3 nor TAG_ISO_14443_4 (for example a card inserted without an
ATR, which gets no standard), handleTag takes the default switch branch and
runs the ISO 14443-3 UID path, not an error path. -/
theorem claim_C9 (c : Card) (h3 : c.standard ≠ some TAG_ISO_14443_3)
    (h4 : c.standard ≠ some TAG_ISO_14443_4) :
    handleTag (some c) = some TagPath.iso3 := by
  simp [handleTag, h3, h4]

/-- Witness for claim C9: the card built from an insertion without an ATR
has no standard and is dispatched to the ISO 14443-3 path. -/
theorem claim_C9_witness :
    handleTag (some (buildInsertedCard none)) = some TagPath.iso3 :=
  claim_C9 (buildInsertedCard none) (by decide) (by decide)

/-- Claim C10: the aid setter never raises for any string argument; every
string is hex-decoded on assignment, decoding stops at the first invalid
pair or odd tail (so a fully non-hex string yields an empty AID buffer);
and only values that are not a string, Buffer or function are rejected with
the configuration error. -/
theorem claim_C10 :
    (∀ s : String, aidSet (.str s) = .ok (.buf (bufferFromHex s)))
  ∧ (∀ s : String, (∀ c ∈ s.data, isHexDigit c = false) → bufferFromHex s = [])
  ∧ (∀ u v : List Char, u.length % 2 = 0 → (∀ c ∈ u, isHexDigit c = true) →
       pairBlocked v = true →
       decodeHexPairs (u ++ v) = decodeHexPairs u ∧ decodeHexPairs v = [])
  ∧ (∀ x : AidValue, x ≠ .other → (aidSet x).isOk = true)
  ∧ aidSet .other = .error "AID must be a HEX string or an instance of Buffer or a function." := by
  refine ⟨fun s => rfl, ?_, ?_, ?_, rfl⟩
  · intro s h
    apply decode_blocked_nil
    match hs : s.data with
    | [] => rfl
    | [c] => rfl
    | c1 :: c2 :: rest =>
      have := h c1 (by rw [hs]; simp)
      simp [pairBlocked, this]
  · intro u v hu hall hv
    exact ⟨decode_append_blocked u v hu hall hv, decode_blocked_nil hv⟩
  · intro x hx
    cases x with
    | fn => rfl
    | buf b => rfl
    | str s => rfl
    | other => exact absurd rfl hx

/-- Witness for claim C10 at concrete strings: a valid pair followed by an
invalid one is truncated after the first byte, a fully non-hex string
decodes to an empty buffer, and the non-string non-Buffer non-function
value is rejected. -/
theorem claim_C10_witness :
    aidSet (.str "a1z2") = .ok (.buf [0xa1])
  ∧ bufferFromHex "zz" = []
  ∧ aidSet .other = .error "AID must be a HEX string or an instance of Buffer or a function." := by
  refine ⟨?_, claim_C10.2.1 "zz" (by decide), claim_C10.2.2.2.2⟩
  have h1 := claim_C10.1 "a1z2"
  have h2 : decodeHexPairs (['a', '1'] ++ ['z', '2']) = decodeHexPairs ['a', '1'] :=
    (claim_C10.2.2.1 ['a', '1'] ['z', '2'] (by decide) (by decide) (by decide)).1
  have h3 : bufferFromHex "a1z2" = [0xa1] := by
    show decodeHexPairs "a1z2".data = [0xa1]
    have : "a1z2".data = ['a', '1'] ++ ['z', '2'] := rfl
    rw [this, h2]
    decide
  rw [h1, h3]

/-- Claim C2 (evaluated at the failing inputs): the claim states that errors
raised during auto-connect and auto-disconnect in the status handler are
emitted on the error event channel.  The code instead passes the error
object itself as the event name (this.emit(err), lines 170 and 202), so a
listener registered with on("error", ...) observes nothing: for a failed
connect on card insertion and a failed disconnect on card removal, the
emitted events contain no event named "error". -/
theorem claim_C2 :
    onCardInserted (.error sampleConnectErr) true [] = [EmitName.errObj sampleConnectErr]
  ∧ errorChannelEvents (onCardInserted (.error sampleConnectErr) true []) = []
  ∧ onCardRemoved true true (.error sampleDisconnectErr)
      = [EmitName.ch "card.off", EmitName.errObj sampleDisconnectErr]
  ∧ errorChannelEvents (onCardRemoved true true (.error sampleDisconnectErr)) = [] := by
  refine ⟨rfl, by decide, rfl, by decide⟩

/-- Claim C7: loadAuthenticationKey(0, "FFFFFFFFFFFF") transmits exactly
FF 82 00 00 06 FF FF FF FF FF FF, and on response 90 00 stores the six FF
bytes in slot 0 and returns 0; authenticate(4, 0x60, "FFFFFFFFFFFF") with
obsolete = false on the resulting storage transmits exactly
FF 86 00 00 05 01 00 04 60 00 and on response 90 00 returns true. -/
theorem claim_C7 :
    (loadAuthenticationKey tx9000 emptyKeyStorage 0 (.str "FFFFFFFFFFFF")).1 = .ok 0
  ∧ (loadAuthenticationKey tx9000 emptyKeyStorage 0 (.str "FFFFFFFFFFFF")).2.2
      = [([0xff, 0x82, 0x00, 0x00, 0x06, 0xff, 0xff, 0xff, 0xff, 0xff, 0xff], 2)]
  ∧ (loadAuthenticationKey tx9000 emptyKeyStorage 0 (.str "FFFFFFFFFFFF")).2.1 0
      = some [0xff, 0xff, 0xff, 0xff, 0xff, 0xff]
  ∧ (authenticate tx9000
       (loadAuthenticationKey tx9000 emptyKeyStorage 0 (.str "FFFFFFFFFFFF")).2.1
       4 0x60 "FFFFFFFFFFFF" false).1 = .ok true
  ∧ (authenticate tx9000
       (loadAuthenticationKey tx9000 emptyKeyStorage 0 (.str "FFFFFFFFFFFF")).2.1
       4 0x60 "FFFFFFFFFFFF" false).2.2
      = [([0xff, 0x86, 0x00, 0x00, 0x05, 0x01, 0x00, 0x04, 0x60, 0x00], 2)] := by
  refine ⟨rfl, rfl, rfl, by decide, by decide⟩

/-- Claim C3 counterexample: the claim states that a provider response
shorter than two bytes makes read fail with a ReadError carrying code
invalid_response; on a one-byte response the error code is operation_failed,
which is not invalid_response. -/
theorem claim_C3_counterexample :
    Except.errCode (readSingle txShort 0 4 0xff).1 = some (some OPERATION_FAILED)
  ∧ some (some OPERATION_FAILED) ≠ (some (some "invalid_response") : Option (Option String)) := by
  exact ⟨rfl, by decide⟩

/-- Claim C3 as amended: with a card present, if the provider response has
length < 2 then read fails with a ReadError carrying code operation_failed
(the code has no invalid_response path in read; the message reports the
invalid response length); otherwise the last two bytes are read as a
big-endian status word and on 0x9000 the returned payload is exactly the
response with the two status bytes stripped. -/
theorem claim_C3_amended (tx : Bytes → Nat → Except NfcError Bytes)
    (blockNumber len readClass : Nat) (resp : Bytes)
    (htx : tx (readPacket readClass blockNumber len) (len + 2) = .ok resp) :
    (resp.length < 2 →
       (readSingle tx blockNumber len readClass).1 = .error
         ⟨"ReadError", some OPERATION_FAILED,
          some ("Read operation failed: Invalid response length " ++
            toString resp.length ++ ". Expected minimal length is 2 bytes.")⟩)
  ∧ (2 ≤ resp.length →
       readUInt16BE0 (resp.drop (resp.length - 2)) = 0x9000 →
       (readSingle tx blockNumber len readClass).1 = .ok (resp.take (resp.length - 2))) := by
  constructor
  · intro hlt
    simp [readSingle, htx, hlt]
  · intro hge hst
    have hnlt : ¬(resp.length < 2) := by omega
    simp [readSingle, htx, hnlt, hst]

/-- Witness for claim C3 as amended, at a response of two payload bytes and
a success status word. -/
theorem claim_C3_amended_witness :
    (readSingle txOkFour 0 2 0xff).1 = .ok [1, 2] :=
  (claim_C3_amended txOkFour 0 2 0xff [1, 2, 0x90, 0x00] rfl).2 (by decide) (by decide)

-- Helper lemmas for the concurrent authenticate scenario.

theorem runPrologues_pending {s : PendingState} (hs : s.pending = true) (l : List Nat) :
    runPrologues s l = (s, []) := by
  induction l with
  | nil => rfl
  | cons i rest ih => simp [runPrologues, authPrologue, hs, ih]

theorem runFinalizers_absent {s : PendingState} (hs : s.pending = false) (l : List Nat) :
    (runFinalizers s l).pending = false
  ∧ (runFinalizers s l).removals = s.removals
  ∧ (runFinalizers s l).inserted = s.inserted := by
  induction l generalizing s with
  | nil => exact ⟨hs, rfl, rfl⟩
  | cons i rest ih =>
    have hstep : runFinalizers s (i :: rest) = runFinalizers (authFinally s i) rest := rfl
    have hsf : (authFinally s i).pending = false := rfl
    rcases ih (s := authFinally s i) hsf with ⟨h1, h2, h3⟩
    refine ⟨by rw [hstep]; exact h1, ?_, ?_⟩
    · rw [hstep, h2]; simp [authFinally, hs]
    · rw [hstep, h3]; simp [authFinally]

/-- Claim C1: for n concurrent authenticate calls (n at least 1) whose key is
in no slot, with either load outcome: the first call inserts the
pendingLoadAuthenticationKey entry in its synchronous prologue, before its
first await; it is the only initiator, the entry is inserted exactly once
(at most one load is in flight), the entry is removed from present to
absent only by the finally clause running in the initiator's scope, and
after every call has settled the entry is absent. -/
theorem claim_C1 (n : Nat) (hn : 1 ≤ n) (outcome : Bool) :
    (authPrologue initPending).1.pending = true
  ∧ (authPrologue initPending).2 = true
  ∧ (authScenario n outcome).2 = [0]
  ∧ (authScenario n outcome).1.removals = [0]
  ∧ (authScenario n outcome).1.pending = false
  ∧ (authScenario n outcome).1.inserted = 1 := by
  obtain ⟨m, rfl⟩ : ∃ m, n = m + 1 := ⟨n - 1, by omega⟩
  have hrange : List.range (m + 1) = 0 :: (List.range m).map (· + 1) :=
    List.range_succ_eq_map m
  have hpro : runPrologues initPending (List.range (m + 1)) =
      (⟨true, 1, [], [], none⟩, [0]) := by
    rw [hrange]
    have h0 : authPrologue initPending = (⟨true, 1, [], [], none⟩, true) := rfl
    simp [runPrologues, h0,
      runPrologues_pending (s := ⟨true, 1, [], [], none⟩) rfl]
  have hfin0 : authFinally (settleLoad ⟨true, 1, [], [], none⟩ outcome) 0 =
      ⟨false, 1, [0], [0], some outcome⟩ := rfl
  have hfin : authScenario (m + 1) outcome =
      (runFinalizers ⟨false, 1, [0], [0], some outcome⟩ ((List.range m).map (· + 1)), [0]) := by
    simp only [authScenario, hpro]
    rw [hrange]
    simp only [runFinalizers, List.foldl_cons, hfin0]
  rcases runFinalizers_absent (s := ⟨false, 1, [0], [0], some outcome⟩) rfl
      ((List.range m).map (· + 1)) with ⟨h1, h2, h3⟩
  refine ⟨rfl, rfl, by rw [hfin], ?_, ?_, ?_⟩
  · rw [hfin]; exact h2
  · rw [hfin]; exact h1
  · rw [hfin]; exact h3

/-- Witness for claim C1: two concurrent calls with a failing load. -/
theorem claim_C1_witness :
    (authScenario 2 false).2 = [0]
  ∧ (authScenario 2 false).1.removals = [0]
  ∧ (authScenario 2 false).1.pending = false :=
  ⟨(claim_C1 2 (by decide) false).2.2.1,
   (claim_C1 2 (by decide) false).2.2.2.1,
   (claim_C1 2 (by decide) false).2.2.2.2.1⟩

-- Helper lemmas for the chunking engines.

theorem attach_map_eq {α β : Type} (l : List α) (f : α → β) :
    l.attach.map (fun x => f x.1) = l.map f := by
  simp

theorem flatten_singletons {α : Type} (l : List α) : (l.map fun x => [x]).flatten = l := by
  induction l with
  | nil => rfl
  | cons a t ih => simp [ih]

theorem promiseAll_ok {α β : Type} (l : List α) (f : α → Except NfcError β) (g : α → β)
    (h : ∀ x ∈ l, f x = .ok (g x)) : promiseAll (l.map f) = .ok (l.map g) := by
  induction l with
  | nil => rfl
  | cons a t ih =>
    have ha := h a (by simp)
    have ht := ih (fun x hx => h x (by simp [hx]))
    simp [promiseAll, ha, ht, Except.map]

theorem writeReqs_part_eq {block : Nat} {data : Bytes} {B : Nat} {x : Nat × Bytes}
    (hdvd : data.length % B = 0) (hx : x ∈ writeReqs block data B) : x.2.length = B := by
  rcases List.mem_map.1 hx with ⟨i, hi, rfl⟩
  have hi' : i < data.length / B := List.mem_range.1 hi
  have hmul : (i + 1) * B ≤ (data.length / B) * B :=
    Nat.mul_le_mul_right _ (by omega)
  have hdb : (data.length / B) * B = data.length := Nat.div_mul_cancel ⟨data.length / B, by
    have := (Nat.div_add_mod data.length B)
    omega⟩
  have hs : (i + 1) * B = i * B + B := by ring
  simp only [List.length_take, List.length_drop]
  obtain ⟨a, ha⟩ : ∃ a, a = i * B := ⟨_, rfl⟩
  omega

theorem writeGo_base (single : Nat → Bytes → Except NfcError Bool) (bn : Nat)
    (part : Bytes) (B : Nat) (hlen : part.length = B) (hB : 0 < B) :
    writeGo single true bn part B = (single bn part, [(bn, part)]) := by
  have hcondF : ¬(part.length < B ∨ B = 0 ∨ part.length % B ≠ 0) := by
    push_neg
    exact ⟨by omega, by omega, by simp [hlen]⟩
  rw [writeGo.eq_def]
  rw [if_neg (by decide), if_neg hcondF, dif_neg (by omega)]

/-- Claim C5: for write with a card present, if the data length is below the
block size or not a multiple of it, write fails with WriteError code
invalid_data_length without issuing any transmission; if the (valid) data
spans more than one block, it issues exactly data.length / blockSize
single-block writes at consecutive blocks starting at block, each carrying
the corresponding blockSize-byte slice of the data, and returns true when
all of them succeed. -/
theorem claim_C5 (single : Nat → Bytes → Except NfcError Bool) (block : Nat)
    (data : Bytes) (B : Nat) :
    ((data.length < B ∨ data.length % B ≠ 0) →
       writeGo single true block data B = (.error writeInvalidDataLengthErr, []))
  ∧ (data.length % B = 0 → B < data.length →
       ((writeGo single true block data B).2 = writeReqs block data B
      ∧ (writeGo single true block data B).2.length = data.length / B
      ∧ (∀ i, i < data.length / B →
           (writeGo single true block data B).2[i]?
             = some (block + i, (data.drop (i * B)).take B))
      ∧ (∀ x ∈ (writeGo single true block data B).2, x.2.length = B)
      ∧ ((∀ b d, single b d = .ok true) →
           (writeGo single true block data B).1 = .ok true))) := by
  constructor
  · intro hbad
    have hcond : data.length < B ∨ B = 0 ∨ data.length % B ≠ 0 := by
      rcases hbad with h | h
      · exact Or.inl h
      · rcases Nat.eq_zero_or_pos B with hB | _
        · exact Or.inr (Or.inl hB)
        · exact Or.inr (Or.inr h)
    rw [writeGo.eq_def]
    rw [if_neg (by decide), if_pos hcond]
  · intro hdvd hgt
    have hB : 0 < B := by
      rcases Nat.eq_zero_or_pos B with h0 | h0
      · subst h0; rw [Nat.mod_zero] at hdvd; omega
      · exact h0
    have hcondF : ¬(data.length < B ∨ B = 0 ∨ data.length % B ≠ 0) := by
      push_neg
      exact ⟨by omega, by omega, hdvd⟩
    have hsplit : writeGo single true block data B =
        ((promiseAll (((writeReqs block data B).attach.map
            (fun r => writeGo single true r.1.1 r.1.2 B)).map Prod.fst)).map (fun _ => true),
         (((writeReqs block data B).attach.map
            (fun r => writeGo single true r.1.1 r.1.2 B)).map Prod.snd).flatten) := by
      rw [writeGo.eq_def]
      rw [if_neg (by decide), if_neg hcondF, dif_pos hgt]
    have hbase : ∀ r : {x // x ∈ writeReqs block data B},
        writeGo single true r.1.1 r.1.2 B = (single r.1.1 r.1.2, [(r.1.1, r.1.2)]) :=
      fun r => writeGo_base single r.1.1 r.1.2 B (writeReqs_part_eq hdvd r.2) hB
    have htrans : (writeGo single true block data B).2 = writeReqs block data B := by
      rw [hsplit]
      show ((((writeReqs block data B).attach.map
        (fun r => writeGo single true r.1.1 r.1.2 B)).map Prod.snd)).flatten = _
      rw [List.map_map]
      have h1 : (writeReqs block data B).attach.map
          (Prod.snd ∘ fun r => writeGo single true r.1.1 r.1.2 B)
          = (writeReqs block data B).attach.map (fun r => [r.1]) := by
        apply List.map_congr_left
        intro r _
        show (writeGo single true r.1.1 r.1.2 B).2 = [r.1]
        rw [hbase r]
      rw [h1, attach_map_eq (f := fun x => [x]), flatten_singletons]
    have hcount : (writeReqs block data B).length = data.length / B := by
      simp [writeReqs]
    refine ⟨htrans, by rw [htrans, hcount], ?_, ?_, ?_⟩
    · intro i hi
      rw [htrans]
      simp [writeReqs, hi]
    · intro x hx
      rw [htrans] at hx
      exact writeReqs_part_eq hdvd hx
    · intro hok
      rw [hsplit]
      show (promiseAll (((writeReqs block data B).attach.map
        (fun r => writeGo single true r.1.1 r.1.2 B)).map Prod.fst)).map (fun _ => true) = _
      rw [List.map_map]
      have h1 : (writeReqs block data B).attach.map
          (Prod.fst ∘ fun r => writeGo single true r.1.1 r.1.2 B)
          = (writeReqs block data B).attach.map (fun r => single r.1.1 r.1.2) := by
        apply List.map_congr_left
        intro r _
        show (writeGo single true r.1.1 r.1.2 B).1 = single r.1.1 r.1.2
        rw [hbase r]
      rw [h1, attach_map_eq (writeReqs block data B) (fun x => single x.1 x.2)]
      rw [promiseAll_ok _ _ (fun _ => true) (fun x _ => hok x.1 x.2)]
      rfl

/-- Witness for claim C5 at an eight-byte write with block size four. -/
theorem claim_C5_witness :
    (writeGo (fun _ _ => .ok true) true 0 [1, 2, 3, 4, 5, 6, 7, 8] 4).2.length = 2
  ∧ (writeGo (fun _ _ => .ok true) true 0 [1, 2, 3, 4, 5, 6, 7, 8] 4).1 = .ok true
  ∧ writeGo (fun _ _ => .ok true) true 0 [1, 2, 3] 4
      = (.error writeInvalidDataLengthErr, []) := by
  have h := claim_C5 (fun _ _ => .ok true) 0 [1, 2, 3, 4, 5, 6, 7, 8] 4
  have h2 := (h.2 (by decide) (by decide))
  refine ⟨h2.2.1, h2.2.2.2.2 (fun _ _ => rfl), ?_⟩
  exact (claim_C5 (fun _ _ => .ok true) 0 [1, 2, 3] 4).1 (by decide)

-- Helper lemmas for the split read.

theorem readReqs_size_le {block : ℚ} {len B P : Nat} {x : ℚ × Nat}
    (hx : x ∈ readReqs block len B P) : x.2 ≤ P := by
  rcases List.mem_map.1 hx with ⟨i, _, rfl⟩
  by_cases hc : (i + 1) * P < len
  · simp [hc]
  · have hs : (i + 1) * P = i * P + P := by ring
    simp only [hc, if_false]
    obtain ⟨a, ha⟩ : ∃ a, a = i * P := ⟨_, rfl⟩
    rw [hs, ← ha] at hc
    rw [← ha]
    omega

theorem readGo_base (single : ℚ → Nat → Except NfcError Bytes) (b : ℚ)
    (len B P : Nat) (hle : len ≤ P) :
    readGo single true b len B P = (single b len, [(b, len)]) := by
  rw [readGo.eq_def]
  rw [if_neg (by decide), dif_neg (by omega)]

theorem sum_sub_telescope (f : Nat → Nat) (hmono : ∀ i, f (i + 1) ≤ f i) :
    ∀ p : Nat, ((List.range p).map (fun i => f i - f (i + 1))).sum = f 0 - f p := by
  intro p
  induction p with
  | zero => simp
  | succ q ih =>
    rw [List.range_succ, List.map_append, List.sum_append, ih]
    have hq0 : f q ≤ f 0 := antitone_nat_of_succ_le hmono (Nat.zero_le q)
    have hq1 : f (q + 1) ≤ f q := hmono q
    simp only [List.map_cons, List.map_nil, List.sum_cons, List.sum_nil, Nat.add_zero]
    omega

theorem sum_sizes (p len P : Nat) (hc : len ≤ p * P) :
    ((List.range p).map (fun i => if (i + 1) * P < len then P else len - i * P)).sum
      = len := by
  have hmono : ∀ i, (fun j => len - j * P) (i + 1) ≤ (fun j => len - j * P) i := by
    intro i
    have hs : (i + 1) * P = i * P + P := by ring
    simp only
    obtain ⟨a, ha⟩ : ∃ a, a = i * P := ⟨_, rfl⟩
    rw [hs, ← ha]
    omega
  have hentry : ∀ i ∈ List.range p,
      (if (i + 1) * P < len then P else len - i * P)
      = (fun j => len - j * P) i - (fun j => len - j * P) (i + 1) := by
    intro i _
    have hs : (i + 1) * P = i * P + P := by ring
    simp only
    obtain ⟨a, ha⟩ : ∃ a, a = i * P := ⟨_, rfl⟩
    by_cases hi : (i + 1) * P < len
    · rw [if_pos hi]
      rw [hs, ← ha] at hi ⊢
      omega
    · rw [if_neg hi]
      rw [hs, ← ha] at hi ⊢
      omega
  rw [List.map_congr_left hentry, sum_sub_telescope (fun j => len - j * P) hmono p]
  simp only [Nat.zero_mul, Nat.sub_zero]
  obtain ⟨a, ha⟩ : ∃ a, a = p * P := ⟨_, rfl⟩
  rw [← ha] at hc ⊢
  omega

theorem ceil_mul_ge (len P : Nat) (hP : 0 < P) :
    len ≤ (Int.toNat ⌈(len : ℚ) / (P : ℚ)⌉) * P := by
  have hPQ : (0 : ℚ) < (P : ℚ) := by exact_mod_cast hP
  have h1 : ((len : ℚ) / (P : ℚ)) ≤ (⌈(len : ℚ) / (P : ℚ)⌉ : ℚ) := Int.le_ceil _
  have h2 : (0 : ℤ) ≤ ⌈(len : ℚ) / (P : ℚ)⌉ :=
    Int.ceil_nonneg (by positivity)
  have h3 : ((Int.toNat ⌈(len : ℚ) / (P : ℚ)⌉ : ℕ) : ℚ)
      = ((⌈(len : ℚ) / (P : ℚ)⌉ : ℤ) : ℚ) := by
    exact_mod_cast congrArg (fun z : ℤ => (z : ℚ)) (Int.toNat_of_nonneg h2)
  have h4 : (len : ℚ) ≤ ((Int.toNat ⌈(len : ℚ) / (P : ℚ)⌉ : ℕ) : ℚ) * (P : ℚ) := by
    rw [div_le_iff₀ hPQ] at h1
    rw [h3]
    exact h1
  exact_mod_cast h4

theorem bufferConcat_exact {vs : List Bytes} {L : Nat} (h : vs.flatten.length = L) :
    bufferConcat vs L = vs.flatten := by
  subst h
  simp [bufferConcat]

/-- Claim C4: for read with a card present and length > packetSize > 0, the
engine issues exactly ceil(length / packetSize) sub-reads; sub-read i
(0-indexed) starts at block + (i * packetSize) / blockSize (exact division,
as JS computes it) and has length min(packetSize, length - i * packetSize);
and when every sub-read succeeds with its requested size, the result is the
concatenation of the sub-results in request order and has exactly length
bytes. -/
theorem claim_C4 (single : ℚ → Nat → Except NfcError Bytes) (w : ℚ → Nat → Bytes)
    (block : ℚ) (len B P : Nat) (hP : 0 < P) (hL : P < len)
    (hok : ∀ b s, single b s = .ok (w b s)) (hwlen : ∀ b s, (w b s).length = s) :
    (readGo single true block len B P).2 = readReqs block len B P
  ∧ (readGo single true block len B P).2.length = Int.toNat ⌈(len : ℚ) / (P : ℚ)⌉
  ∧ (∀ i, i < (readGo single true block len B P).2.length →
       (readGo single true block len B P).2[i]?
         = some (block + ((i : ℚ) * (P : ℚ)) / (B : ℚ), min P (len - i * P)))
  ∧ (readGo single true block len B P).1
      = .ok ((readReqs block len B P).map (fun x => w x.1 x.2)).flatten
  ∧ (((readReqs block len B P).map (fun x => w x.1 x.2)).flatten).length = len := by
  have hsplit : readGo single true block len B P =
      ((promiseAll (((readReqs block len B P).attach.map
          (fun r => readGo single true r.1.1 r.1.2 B P)).map Prod.fst)).map
        (fun vs => bufferConcat vs len),
       (((readReqs block len B P).attach.map
          (fun r => readGo single true r.1.1 r.1.2 B P)).map Prod.snd).flatten) := by
    rw [readGo.eq_def]
    rw [if_neg (by decide), dif_pos hL]
  have hbase : ∀ r : {x // x ∈ readReqs block len B P},
      readGo single true r.1.1 r.1.2 B P = (single r.1.1 r.1.2, [(r.1.1, r.1.2)]) :=
    fun r => readGo_base single r.1.1 r.1.2 B P (readReqs_size_le r.2)
  have htrans : (readGo single true block len B P).2 = readReqs block len B P := by
    rw [hsplit]
    show ((((readReqs block len B P).attach.map
      (fun r => readGo single true r.1.1 r.1.2 B P)).map Prod.snd)).flatten = _
    rw [List.map_map]
    have h1 : (readReqs block len B P).attach.map
        (Prod.snd ∘ fun r => readGo single true r.1.1 r.1.2 B P)
        = (readReqs block len B P).attach.map (fun r => [r.1]) := by
      apply List.map_congr_left
      intro r _
      show (readGo single true r.1.1 r.1.2 B P).2 = [r.1]
      rw [hbase r]
    rw [h1, attach_map_eq (readReqs block len B P) (fun x => [x]), flatten_singletons]
  have hsizes : ((readReqs block len B P).map (fun x => x.2)).sum = len := by
    have h1 : (readReqs block len B P).map (fun x => x.2)
        = (List.range (Int.toNat ⌈(len : ℚ) / (P : ℚ)⌉)).map
            (fun i => if (i + 1) * P < len then P else len - i * P) := by
      simp [readReqs, List.map_map, Function.comp]
    rw [h1]
    exact sum_sizes _ len P (ceil_mul_ge len P hP)
  have hflatlen : (((readReqs block len B P).map (fun x => w x.1 x.2)).flatten).length
      = len := by
    rw [List.length_flatten, List.map_map]
    have h1 : (readReqs block len B P).map (List.length ∘ fun x => w x.1 x.2)
        = (readReqs block len B P).map (fun x => x.2) := by
      apply List.map_congr_left
      intro x _
      exact hwlen x.1 x.2
    rw [h1, hsizes]
  refine ⟨htrans, by rw [htrans]; simp [readReqs], ?_, ?_, hflatlen⟩
  · intro i hi
    rw [htrans] at hi ⊢
    have hip : i < Int.toNat ⌈(len : ℚ) / (P : ℚ)⌉ := by
      simpa [readReqs] using hi
    simp only [readReqs, List.getElem?_map, List.getElem?_range, hip, if_pos]
    rw [Option.map_some']
    have hmin : (if (i + 1) * P < len then P else len - i * P) = min P (len - i * P) := by
      have hs : (i + 1) * P = i * P + P := by ring
      obtain ⟨a, ha⟩ : ∃ a, a = i * P := ⟨_, rfl⟩
      by_cases hc : (i + 1) * P < len
      · rw [if_pos hc]
        rw [hs, ← ha] at hc
        rw [← ha]
        omega
      · rw [if_neg hc]
        rw [hs, ← ha] at hc
        rw [← ha]
        omega
    rw [hmin]
  · rw [hsplit]
    show (promiseAll (((readReqs block len B P).attach.map
      (fun r => readGo single true r.1.1 r.1.2 B P)).map Prod.fst)).map
        (fun vs => bufferConcat vs len) = _
    rw [List.map_map]
    have h1 : (readReqs block len B P).attach.map
        (Prod.fst ∘ fun r => readGo single true r.1.1 r.1.2 B P)
        = (readReqs block len B P).attach.map (fun r => single r.1.1 r.1.2) := by
      apply List.map_congr_left
      intro r _
      show (readGo single true r.1.1 r.1.2 B P).1 = single r.1.1 r.1.2
      rw [hbase r]
    rw [h1, attach_map_eq (readReqs block len B P) (fun x => single x.1 x.2)]
    rw [promiseAll_ok _ _ (fun x => w x.1 x.2) (fun x _ => hok x.1 x.2)]
    show Except.ok (bufferConcat ((readReqs block len B P).map (fun x => w x.1 x.2)) len) = _
    rw [bufferConcat_exact hflatlen]

/-- Witness for claim C4 at read(0, 32, 4, 16) with a provider returning the
requested number of bytes for every sub-read. -/
theorem claim_C4_witness :
    (readGo (fun _ s => .ok (List.replicate s 7)) true (0 : ℚ) 32 4 16).2.length
      = Int.toNat ⌈(32 : ℚ) / (16 : ℚ)⌉
  ∧ (readGo (fun _ s => .ok (List.replicate s 7)) true (0 : ℚ) 32 4 16).1
      = .ok ((readReqs (0 : ℚ) 32 4 16).map (fun x => List.replicate x.2 7)).flatten := by
  have h := claim_C4 (fun _ s => .ok (List.replicate s 7)) (fun _ s => List.replicate s 7)
    (0 : ℚ) 32 4 16 (by decide) (by decide) (fun _ _ => rfl)
    (fun _ s => List.length_replicate s 7)
  exact ⟨h.2.1, h.2.2.2.1⟩

end NfcPcsc
